import Mathlib

/-!
Verification development for the stack translation and dependency-aware
deployment orchestrator of the okteto CLI (package stack).

The data model and the translator functions are shallowly embedded from the
Go source (cmd/stack translate.go and its test file).  Go maps whose only
observable operations are assignment and lookup are embedded as association
lists with a replace-on-insert operation; Go pointer mutation of a service
inside the stack is embedded by state passing (the function returns the
updated service next to its result).  Machine integers of the source
(int32 replica counts, port numbers, restart counts) never overflow in the
modelled domain and are embedded as Nat.

Functions of this package whose body is not part of the available source
(only their tests and callers are) are modelled from the specification; each
such definition carries a doc comment starting with: Modelled from the spec.
-/

/-! ## Association-list embedding of Go maps -/

/-- Lookup in an association list, first binding wins (Go map read). -/
def lookupAssoc {α : Type} : List (String × α) → String → Option α
  | [], _ => none
  | (k, v) :: rest, key => if k = key then some v else lookupAssoc rest key

/-- Insert into an association list replacing an existing binding
(Go map assignment). -/
def mapInsert {α : Type} : List (String × α) → String → α → List (String × α)
  | [], k, v => [(k, v)]
  | (k0, v0) :: rest, k, v =>
      if k0 = k then (k, v) :: rest else (k0, v0) :: mapInsert rest k v

theorem lookupAssoc_mapInsert_self {α : Type} (l : List (String × α)) (k : String) (v : α) :
    lookupAssoc (mapInsert l k v) k = some v := by
  induction l with
  | nil => simp [mapInsert, lookupAssoc]
  | cons hd tl ih =>
      by_cases h : hd.1 = k
      · simp [mapInsert, h, lookupAssoc]
      · simp [mapInsert, h, lookupAssoc, ih]

theorem lookupAssoc_mapInsert_ne {α : Type} (l : List (String × α)) (k k0 : String) (v : α)
    (h : k0 ≠ k) : lookupAssoc (mapInsert l k0 v) k = lookupAssoc l k := by
  induction l with
  | nil => simp [mapInsert, lookupAssoc, h]
  | cons hd tl ih =>
      by_cases h1 : hd.1 = k0
      · simp [mapInsert, h1, lookupAssoc, h]
      · simp only [mapInsert, h1, if_false, lookupAssoc]
        by_cases h2 : hd.1 = k
        · simp [h2]
        · simp [h2, ih]

/-! ## Data model (pkg/model entities used by the stack package) -/

/-- model.StackVolume: a volume reference of a service. -/
structure StackVolume where
  LocalPath : String
  RemotePath : String
deriving DecidableEq

/-- model.Port: one published port of a service. -/
structure Port where
  HostPort : Nat
  ContainerPort : Nat
  Protocol : String
deriving DecidableEq

/-- resource.Quantity: only its numeric comparison against zero is observed
by the translator, so it is embedded as the parsed numeric value. -/
structure Quantity where
  Value : Nat
deriving DecidableEq

/-- model.ServiceResources: cpu and memory quantities of one resource class. -/
structure ServiceResources where
  CPU : Quantity
  Memory : Quantity
deriving DecidableEq

/-- model.StackResources: limits and requests of a service. -/
structure StackResources where
  Limits : ServiceResources
  Requests : ServiceResources
deriving DecidableEq

/-- model.HTTPHealtcheck: path and port of an HTTP health probe. -/
structure HTTPHealtcheck where
  Path : String
  Port : Nat
deriving DecidableEq

/-- model.HealthCheck (field name Healtcheck in the source): durations are
embedded as their whole-second values, which is what the translator reads. -/
structure Healtcheck where
  Test : List String
  HTTP : Option HTTPHealtcheck
  Timeout : Nat
  Interval : Nat
  Retries : Nat
  StartPeriod : Nat
deriving DecidableEq

/-- DependsOn condition of a dependency (model.DependsOnConditionSpec). -/
inductive Condition
  | started
  | healthy
  | completed
deriving DecidableEq

/-- model.Service: the fields of the service entity read by this package. -/
structure Service where
  Image : String
  Entrypoint : List String
  Command : List String
  Environment : List (String × String)
  Ports : List Port
  Volumes : List StackVolume
  RestartPolicy : String
  Resources : Option StackResources
  Healtcheck : Option Healtcheck
  Replicas : Nat
  BackOffLimit : Nat
  DependsOn : List (String × Condition)
  Labels : List (String × String)
  Annotations : List (String × String)
  CapAdd : List String
  CapDrop : List String
  Workdir : String
  StopGracePeriod : Nat
deriving DecidableEq

/-- model.Stack: the fields of the stack entity read by this package. -/
structure Stack where
  Name : String
  Namespace : String
  Services : List (String × Service)
  Manifest : List Nat
  IsCompose : Bool
deriving DecidableEq

/-- Zero value of a service.  The Go source indexes s.Services[svcName]
without a presence check (validation runs upstream); the embedding totalises
those reads with this default, which no claim exercises. -/
def emptyService : Service :=
  { Image := "", Entrypoint := [], Command := [], Environment := [],
    Ports := [], Volumes := [], RestartPolicy := "", Resources := none,
    Healtcheck := none, Replicas := 0, BackOffLimit := 0, DependsOn := [],
    Labels := [], Annotations := [], CapAdd := [], CapDrop := [],
    Workdir := "", StopGracePeriod := 0 }

/-- Service of a stack by name, defaulting to the zero value. -/
def svcOf (s : Stack) (svcName : String) : Service :=
  (lookupAssoc s.Services svcName).getD emptyService

/-- corev1.RestartPolicyAlways. -/
def RestartPolicyAlways : String := "Always"

/-- corev1.RestartPolicyNever. -/
def RestartPolicyNever : String := "Never"

/-- model.StackNameLabel: ownership label carrying the stack name. -/
def StackNameLabel : String := "stack.okteto.com/name"

/-- model.StackServiceNameLabel: identity label carrying the service name. -/
def StackServiceNameLabel : String := "stack.okteto.com/service"

/-- model.StackVolumeNameLabel: identity label of volume claims and the
prefix of the per-volume co-location marker labels. -/
def StackVolumeNameLabel : String := "stack.okteto.com/volume"

/-- model.DeployedByLabel. -/
def DeployedByLabel : String := "dev.okteto.com/deployed-by"

/-- model.StackLabel, set on the stack configuration record. -/
def StackLabel : String := "stack.okteto.com"

/-- model.OktetoComposeUpdateStrategyAnnotation: the per-service update
strategy annotation key (source name ends differently; renamed here). -/
def OktetoComposeUpdateStrategyKey : String := "dev.okteto.com/update"

/-- model.OktetoSampleAnnotation key (renamed here). -/
def OktetoSampleKey : String := "dev.okteto.com/sample"

/-! ## translateResources (source lines 1617-1644) -/

/-- apiv1.ResourceName constants used by translateResources. -/
def resourceCPU : String := "cpu"

/-- apiv1.ResourceMemory. -/
def resourceMemory : String := "memory"

/-- apiv1.ResourceRequirements: Limits and Requests are Go maps that are
distinguishable between nil and empty, hence Option of an assoc list. -/
structure ResourceRequirements where
  Limits : Option (List (String × Nat))
  Requests : Option (List (String × Nat))
deriving DecidableEq

/-- translateResources: direct embedding of the source.  Each branch guards
on the parsed value comparing greater than zero.  Note that in the
Requests.Memory branch the source performs the memory assignment inside the
nil check of result.Requests, which the embedding reproduces exactly. -/
def translateResources (svc : Service) : ResourceRequirements :=
  match svc.Resources with
  | none => { Limits := none, Requests := none }
  | some r =>
    let limits1 : Option (List (String × Nat)) :=
      if r.Limits.CPU.Value > 0 then some [(resourceCPU, r.Limits.CPU.Value)] else none
    let limits2 : Option (List (String × Nat)) :=
      if r.Limits.Memory.Value > 0 then
        some ((limits1.getD []) ++ [(resourceMemory, r.Limits.Memory.Value)])
      else limits1
    let requests1 : Option (List (String × Nat)) :=
      if r.Requests.CPU.Value > 0 then some [(resourceCPU, r.Requests.CPU.Value)] else none
    let requests2 : Option (List (String × Nat)) :=
      if r.Requests.Memory.Value > 0 then
        match requests1 with
        | none => some [(resourceMemory, r.Requests.Memory.Value)]
        | some l => some l
      else requests1
    { Limits := limits2, Requests := requests2 }

/-- Concrete service exposing the C1 failing input: cpu request 1, memory
request 1, no limits. -/
def svcBothRequests : Service :=
  { emptyService with
    Resources := some
      { Limits := { CPU := ⟨0⟩, Memory := ⟨0⟩ },
        Requests := { CPU := ⟨1⟩, Memory := ⟨1⟩ } } }

/-- C1: for a service whose CPU request and memory request are both greater
than zero, the claim requires the emitted requests list to contain both the
CPU and the memory request.  The code instead drops the memory request
whenever the CPU request is positive, because the memory assignment is
nested inside the nil check of result.Requests (the parallel memory-limit
branch performs the assignment outside that check, showing the slip).  This
theorem evaluates the code at the failing input: the emitted requests list
holds only the CPU entry and no memory entry. -/
theorem translateResources_drops_memory_request :
    (translateResources svcBothRequests).Requests = some [(resourceCPU, 1)] ∧
      lookupAssoc [(resourceCPU, 1)] resourceMemory = none :=
  ⟨rfl, rfl⟩

/-! ## getSvcProbe (source lines 1646-1672) -/

/-- apiv1 probe handler: an exec command or an HTTP get. -/
inductive ProbeHandler
  | exec (command : List String)
  | httpGet (path : String) (port : Nat)
deriving DecidableEq

/-- apiv1.Probe as populated by getSvcProbe. -/
structure Probe where
  handler : ProbeHandler
  TimeoutSeconds : Nat
  PeriodSeconds : Nat
  FailureThreshold : Nat
  InitialDelaySeconds : Nat
deriving DecidableEq

/-- getSvcProbe: returns some none when the source returns nil (no probe),
some (some p) when the source returns a probe, and none when the source
dereferences the nil HTTP pointer (the panic branch: Healtcheck present,
empty Test, nil HTTP). -/
def getSvcProbe (svc : Service) : Option (Option Probe) :=
  match svc.Healtcheck with
  | none => some none
  | some hc =>
    if hc.Test ≠ [] then
      some (some
        { handler := ProbeHandler.exec hc.Test,
          TimeoutSeconds := hc.Timeout, PeriodSeconds := hc.Interval,
          FailureThreshold := hc.Retries, InitialDelaySeconds := hc.StartPeriod })
    else
      match hc.HTTP with
      | none => none
      | some http =>
        some (some
          { handler := ProbeHandler.httpGet http.Path http.Port,
            TimeoutSeconds := hc.Timeout, PeriodSeconds := hc.Interval,
            FailureThreshold := hc.Retries, InitialDelaySeconds := hc.StartPeriod })

/-- C10: getSvcProbe is total only under the precondition that every non-nil
healthcheck with an empty Test command has a non-nil HTTP section.  With no
healthcheck it yields no probe; with a non-empty Test it yields an exec
probe; with an empty Test it unconditionally reads the HTTP section, so a
healthcheck with neither Test nor HTTP reaches the nil-dereference branch
(result none) instead of yielding an absent probe. -/
theorem getSvcProbe_totality (svc : Service) :
    (svc.Healtcheck = none → getSvcProbe svc = some none) ∧
    (∀ hc, svc.Healtcheck = some hc → hc.Test ≠ [] →
      getSvcProbe svc = some (some
        { handler := ProbeHandler.exec hc.Test,
          TimeoutSeconds := hc.Timeout, PeriodSeconds := hc.Interval,
          FailureThreshold := hc.Retries, InitialDelaySeconds := hc.StartPeriod })) ∧
    (∀ hc, svc.Healtcheck = some hc → hc.Test = [] → hc.HTTP = none →
      getSvcProbe svc = none) ∧
    ((∀ hc, svc.Healtcheck = some hc → hc.Test = [] → hc.HTTP ≠ none) →
      (getSvcProbe svc).isSome) := by
  refine ⟨?_, ?_, ?_, ?_⟩
  · intro h; simp [getSvcProbe, h]
  · intro hc h hTest; simp [getSvcProbe, h, hTest]
  · intro hc h hTest hHTTP; simp [getSvcProbe, h, hTest, hHTTP]
  · intro hpre
    match hhc : svc.Healtcheck with
    | none => simp [getSvcProbe, hhc]
    | some hc =>
      by_cases hTest : hc.Test = []
      · have hHTTP := hpre hc hhc hTest
        match hH : hc.HTTP with
        | none => exact absurd hH hHTTP
        | some http => simp [getSvcProbe, hhc, hTest, hH]
      · simp [getSvcProbe, hhc, hTest]

/-- Witness for C10 at a concrete service with an exec healthcheck. -/
def svcExecProbe : Service :=
  { emptyService with
    Healtcheck := some
      { Test := ["curl", "localhost"], HTTP := none,
        Timeout := 5, Interval := 10, Retries := 3, StartPeriod := 1 } }

theorem getSvcProbe_totality_witness :
    ((∀ hc, svcExecProbe.Healtcheck = some hc → hc.Test = [] → hc.HTTP ≠ none) →
      (getSvcProbe svcExecProbe).isSome) ∧ (getSvcProbe svcExecProbe).isSome := by
  refine ⟨(getSvcProbe_totality svcExecProbe).2.2.2, ?_⟩
  exact (getSvcProbe_totality svcExecProbe).2.2.2 (by decide)

/-! ## translateContainerPorts (source lines 1568-1577)

The source calls sort.Slice on svc.Ports, reordering the Ports slice of the
input service in place (svc is a pointer into the Stack), and then emits one
container port per entry of the sorted slice.  The in-place mutation is
embedded by state passing: the function returns the emitted ports next to
the updated service.  sort.Slice guarantees only some ordering that is
nondecreasing under the comparator; the insertion sort below is the chosen
deterministic refinement of it. -/

/-- apiv1.ContainerPort as emitted by translateContainerPorts. -/
structure ContainerPortSpec where
  ContainerPort : Nat
deriving DecidableEq

/-- Insertion step of the embedded sort, strict comparison as in the
source comparator. -/
def insertPortSorted (p : Port) : List Port → List Port
  | [] => [p]
  | q :: qs =>
      if p.ContainerPort < q.ContainerPort then p :: q :: qs
      else q :: insertPortSorted p qs

/-- The nondecreasing reordering of the Ports slice produced by sort.Slice
with the comparator of the source (ascending by container port). -/
def sortPorts : List Port → List Port
  | [] => []
  | p :: ps => insertPortSorted p (sortPorts ps)

/-- translateContainerPorts: returns the emitted container ports and the
service as left behind by the call (Ports slice reordered in place). -/
def translateContainerPorts (svc : Service) : List ContainerPortSpec × Service :=
  let sorted := sortPorts svc.Ports
  (sorted.map (fun p => { ContainerPort := p.ContainerPort }), { svc with Ports := sorted })

theorem insertPortSorted_perm (p : Port) (l : List Port) :
    List.Perm (insertPortSorted p l) (p :: l) := by
  induction l with
  | nil => simp [insertPortSorted]
  | cons q qs ih =>
      by_cases h : p.ContainerPort < q.ContainerPort
      · simp [insertPortSorted, h]
      · simp only [insertPortSorted, h, if_false]
        exact List.Perm.trans (List.Perm.cons q ih) (List.Perm.swap p q qs)

theorem sortPorts_perm (l : List Port) : List.Perm (sortPorts l) l := by
  induction l with
  | nil => simp [sortPorts]
  | cons p ps ih =>
      exact List.Perm.trans (insertPortSorted_perm p (sortPorts ps)) (List.Perm.cons p ih)

theorem insertPortSorted_sorted (p : Port) (l : List Port)
    (h : List.Pairwise (fun a b => a.ContainerPort ≤ b.ContainerPort) l) :
    List.Pairwise (fun a b => a.ContainerPort ≤ b.ContainerPort) (insertPortSorted p l) := by
  induction l with
  | nil => simp [insertPortSorted]
  | cons q qs ih =>
      rcases List.pairwise_cons.mp h with ⟨hq, hqs⟩
      by_cases hlt : p.ContainerPort < q.ContainerPort
      · simp only [insertPortSorted, hlt, if_true]
        refine List.pairwise_cons.mpr ⟨?_, h⟩
        intro b hb
        rcases List.mem_cons.mp hb with hb2 | hb2
        · subst hb2; omega
        · exact le_trans (le_of_lt hlt) (hq b hb2)
      · simp only [insertPortSorted, hlt, if_false]
        refine List.pairwise_cons.mpr ⟨?_, ih hqs⟩
        intro b hb
        have hmem : b = p ∨ b ∈ qs :=
          List.mem_cons.mp ((insertPortSorted_perm p qs).mem_iff.mp hb)
        rcases hmem with hb2 | hb2
        · subst hb2; omega
        · exact hq b hb2

theorem sortPorts_sorted (l : List Port) :
    List.Pairwise (fun a b => a.ContainerPort ≤ b.ContainerPort) (sortPorts l) := by
  induction l with
  | nil => simp [sortPorts]
  | cons p ps ih => exact insertPortSorted_sorted p (sortPorts ps) ih

/-- Concrete service whose Ports slice is not sorted by container port. -/
def svcUnsortedPorts : Service :=
  { emptyService with
    Ports := [{ HostPort := 0, ContainerPort := 8080, Protocol := "TCP" },
              { HostPort := 0, ContainerPort := 80, Protocol := "TCP" }] }

/-- C6 counterexample: the claim states that running a translate function
leaves the input model exactly as it was.  At this concrete service,
translateContainerPorts hands back a service whose Ports slice differs from
the input (sort.Slice reordered it in place), refuting the claim. -/
theorem translateContainerPorts_mutates_input :
    (translateContainerPorts svcUnsortedPorts).2 ≠ svcUnsortedPorts := by
  decide

/-- C6 amended: translation leaves the input service unchanged except that
emitting container ports sorts the Ports slice of the service in place,
ascending by container port: the resulting Ports are a nondecreasing
permutation of the originals, every other field is untouched (writing the
original Ports back yields the original service), and the emitted container
ports are exactly the sorted ports. -/
theorem translateContainerPorts_sorts_in_place (svc : Service) :
    List.Perm (translateContainerPorts svc).2.Ports svc.Ports ∧
    List.Pairwise (fun a b => a.ContainerPort ≤ b.ContainerPort)
      (translateContainerPorts svc).2.Ports ∧
    { (translateContainerPorts svc).2 with Ports := svc.Ports } = svc ∧
    (translateContainerPorts svc).1 =
      ((translateContainerPorts svc).2.Ports).map (fun p => { ContainerPort := p.ContainerPort }) := by
  refine ⟨sortPorts_perm svc.Ports, sortPorts_sorted svc.Ports, rfl, rfl⟩

/-! ## translateServicePorts and isServicePortAdded (source lines 1579-1615) -/

/-- apiv1.ServicePort as emitted by translateServicePorts. -/
structure ServicePort where
  Name : String
  Port : Nat
  TargetPort : Nat
  Protocol : String
deriving DecidableEq

/-- isServicePortAdded: the linear scan of the source over the ports
emitted so far, comparing numeric port values. -/
def isServicePortAdded (newPort : Nat) : List ServicePort → Bool
  | [] => false
  | p :: rest => if p.Port = newPort then true else isServicePortAdded newPort rest

/-- The entry emitted for a container port, named from the container port
twice and the lowercased protocol. -/
def containerPortEntry (p : Port) : ServicePort :=
  { Name := "p-" ++ toString p.ContainerPort ++ "-" ++ toString p.ContainerPort
      ++ "-" ++ p.Protocol.toLower,
    Port := p.ContainerPort, TargetPort := p.ContainerPort, Protocol := p.Protocol }

/-- The additional entry emitted for a distinct host port, named from the
host and container ports and the lowercased protocol. -/
def hostPortEntry (p : Port) : ServicePort :=
  { Name := "p-" ++ toString p.HostPort ++ "-" ++ toString p.ContainerPort
      ++ "-" ++ p.Protocol.toLower,
    Port := p.HostPort, TargetPort := p.ContainerPort, Protocol := p.Protocol }

/-- Second half of the loop body of translateServicePorts: the conditional
emission of the extra host-port entry, checked against the ports emitted so
far including the container entry of the current port. -/
def servicePortsHostStep (p : Port) (result1 : List ServicePort) : List ServicePort :=
  if p.HostPort ≠ 0 ∧ p.ContainerPort ≠ p.HostPort ∧ isServicePortAdded p.HostPort result1 = false
  then result1 ++ [hostPortEntry p] else result1

/-- One iteration of the loop body of translateServicePorts for port p:
the conditional emission of the container entry followed by the conditional
emission of the host entry. -/
def servicePortsStep (p : Port) (result : List ServicePort) : List ServicePort :=
  servicePortsHostStep p
    (if isServicePortAdded p.ContainerPort result then result
     else result ++ [containerPortEntry p])

/-- The loop of translateServicePorts over the remaining ports. -/
def servicePortsLoop : List Port → List ServicePort → List ServicePort
  | [], result => result
  | p :: ps, result => servicePortsLoop ps (servicePortsStep p result)

/-- translateServicePorts: loop over svc.Ports accumulating emitted
service ports, starting from the empty result. -/
def translateServicePorts (svc : Service) : List ServicePort :=
  servicePortsLoop svc.Ports []

theorem isServicePortAdded_false_iff (n : Nat) (l : List ServicePort) :
    isServicePortAdded n l = false ↔ ∀ sp ∈ l, sp.Port ≠ n := by
  induction l with
  | nil => simp [isServicePortAdded]
  | cons hd tl ih =>
      by_cases h : hd.Port = n
      · simp [isServicePortAdded, h]
      · simp [isServicePortAdded, h, ih]

theorem servicePortsHostStep_mono (p : Port) (r1 : List ServicePort) :
    ∃ d, servicePortsHostStep p r1 = r1 ++ d := by
  unfold servicePortsHostStep
  by_cases h : p.HostPort ≠ 0 ∧ p.ContainerPort ≠ p.HostPort ∧
      isServicePortAdded p.HostPort r1 = false
  · exact ⟨[hostPortEntry p], if_pos h⟩
  · exact ⟨[], by rw [if_neg h, List.append_nil]⟩

theorem servicePortsStep_mono (p : Port) (result : List ServicePort) :
    ∃ d, servicePortsStep p result = result ++ d := by
  unfold servicePortsStep
  by_cases h1 : isServicePortAdded p.ContainerPort result
  · rw [if_pos h1]; exact servicePortsHostStep_mono p result
  · rw [if_neg h1]
    obtain ⟨d, hd⟩ := servicePortsHostStep_mono p (result ++ [containerPortEntry p])
    refine ⟨containerPortEntry p :: d, ?_⟩
    rw [hd, List.append_assoc]
    rfl

theorem servicePortsLoop_mono (ps : List Port) :
    ∀ result, ∃ d, servicePortsLoop ps result = result ++ d := by
  induction ps with
  | nil => intro result; exact ⟨[], by simp [servicePortsLoop]⟩
  | cons p ps ih =>
      intro result
      obtain ⟨d1, h1⟩ := servicePortsStep_mono p result
      obtain ⟨d2, h2⟩ := ih (servicePortsStep p result)
      exact ⟨d1 ++ d2, by rw [servicePortsLoop, h2, h1, List.append_assoc]⟩

theorem nodup_append_singleton {α : Type} [DecidableEq α] (l : List α) (x : α)
    (hl : l.Nodup) (hx : x ∉ l) : (l ++ [x]).Nodup := by
  rw [List.nodup_append]
  exact ⟨hl, List.nodup_singleton x, by simpa [List.disjoint_left] using hx⟩

theorem servicePortsHostStep_nodup (p : Port) (r1 : List ServicePort)
    (h : (r1.map (fun sp => sp.Port)).Nodup) :
    ((servicePortsHostStep p r1).map (fun sp => sp.Port)).Nodup := by
  unfold servicePortsHostStep
  by_cases h2 : p.HostPort ≠ 0 ∧ p.ContainerPort ≠ p.HostPort ∧
      isServicePortAdded p.HostPort r1 = false
  · rw [if_pos h2]
    simp only [List.map_append, List.map_cons, List.map_nil]
    refine nodup_append_singleton _ _ h ?_
    intro hmem
    rcases List.mem_map.mp hmem with ⟨sp, hsp, hval⟩
    exact (isServicePortAdded_false_iff _ _).mp h2.2.2 sp hsp hval
  · rw [if_neg h2]; exact h

theorem servicePortsStep_nodup (p : Port) (result : List ServicePort)
    (h : (result.map (fun sp => sp.Port)).Nodup) :
    ((servicePortsStep p result).map (fun sp => sp.Port)).Nodup := by
  unfold servicePortsStep
  apply servicePortsHostStep_nodup
  by_cases h1 : isServicePortAdded p.ContainerPort result
  · rw [if_pos h1]; exact h
  · rw [if_neg h1]
    simp only [List.map_append, List.map_cons, List.map_nil]
    refine nodup_append_singleton _ _ h ?_
    intro hmem
    rcases List.mem_map.mp hmem with ⟨sp, hsp, hval⟩
    exact (isServicePortAdded_false_iff _ _).mp (by simpa using h1) sp hsp
      (by simpa [containerPortEntry] using hval)

theorem servicePortsLoop_nodup (ps : List Port) :
    ∀ result, (result.map (fun sp => sp.Port)).Nodup →
      ((servicePortsLoop ps result).map (fun sp => sp.Port)).Nodup := by
  induction ps with
  | nil => intro result h; simpa [servicePortsLoop] using h
  | cons p ps ih =>
      intro result h
      exact ih _ (servicePortsStep_nodup p result h)

theorem isServicePortAdded_true_iff (n : Nat) (l : List ServicePort) :
    isServicePortAdded n l = true ↔ ∃ sp ∈ l, sp.Port = n := by
  induction l with
  | nil => simp [isServicePortAdded]
  | cons hd tl ih =>
      by_cases h : hd.Port = n
      · simp [isServicePortAdded, h]
      · simp [isServicePortAdded, h, ih]

theorem servicePortsHostStep_value_mono (p : Port) (r1 : List ServicePort) (n : Nat)
    (h : n ∈ r1.map (fun sp => sp.Port)) :
    n ∈ (servicePortsHostStep p r1).map (fun sp => sp.Port) := by
  obtain ⟨d, hd⟩ := servicePortsHostStep_mono p r1
  rw [hd]
  simp only [List.map_append, List.mem_append]
  exact Or.inl h

theorem servicePortsStep_contains_container (p : Port) (result : List ServicePort) :
    p.ContainerPort ∈ (servicePortsStep p result).map (fun sp => sp.Port) := by
  unfold servicePortsStep
  apply servicePortsHostStep_value_mono
  by_cases h1 : isServicePortAdded p.ContainerPort result
  · rw [if_pos h1]
    rcases (isServicePortAdded_true_iff _ _).mp h1 with ⟨sp, hsp, hv⟩
    exact List.mem_map.mpr ⟨sp, hsp, hv⟩
  · rw [if_neg h1]
    simp [containerPortEntry]

theorem servicePortsHostStep_contains_of_ne (p : Port) (r1 : List ServicePort)
    (h0 : p.HostPort ≠ 0) (hne : p.ContainerPort ≠ p.HostPort) :
    p.HostPort ∈ (servicePortsHostStep p r1).map (fun sp => sp.Port) := by
  unfold servicePortsHostStep
  match hb : isServicePortAdded p.HostPort r1 with
  | true =>
      rw [if_neg (by simp)]
      rcases (isServicePortAdded_true_iff _ _).mp hb with ⟨sp, hsp, hv⟩
      exact List.mem_map.mpr ⟨sp, hsp, hv⟩
  | false =>
      rw [if_pos ⟨h0, hne, rfl⟩]
      simp [hostPortEntry]

theorem servicePortsStep_contains_host (p : Port) (result : List ServicePort)
    (h0 : p.HostPort ≠ 0) :
    p.HostPort ∈ (servicePortsStep p result).map (fun sp => sp.Port) := by
  by_cases heq : p.ContainerPort = p.HostPort
  · have := servicePortsStep_contains_container p result
    rwa [heq] at this
  · unfold servicePortsStep
    exact servicePortsHostStep_contains_of_ne p _ h0 heq

theorem servicePortsHostStep_provenance (p : Port) (r1 : List ServicePort) :
    ∀ sp ∈ servicePortsHostStep p r1, sp ∈ r1 ∨
      (sp = hostPortEntry p ∧ p.HostPort ≠ 0 ∧ p.ContainerPort ≠ p.HostPort) := by
  intro sp hsp
  unfold servicePortsHostStep at hsp
  by_cases h2 : p.HostPort ≠ 0 ∧ p.ContainerPort ≠ p.HostPort ∧
      isServicePortAdded p.HostPort r1 = false
  · rw [if_pos h2] at hsp
    rcases List.mem_append.mp hsp with hl | hr
    · exact Or.inl hl
    · exact Or.inr ⟨List.mem_singleton.mp hr, h2.1, h2.2.1⟩
  · rw [if_neg h2] at hsp; exact Or.inl hsp

theorem servicePortsStep_provenance (p : Port) (result : List ServicePort) :
    ∀ sp ∈ servicePortsStep p result, sp ∈ result ∨ sp = containerPortEntry p ∨
      (sp = hostPortEntry p ∧ p.HostPort ≠ 0 ∧ p.ContainerPort ≠ p.HostPort) := by
  intro sp hsp
  unfold servicePortsStep at hsp
  rcases servicePortsHostStep_provenance p _ sp hsp with h1 | h2
  · by_cases hc : isServicePortAdded p.ContainerPort result
    · rw [if_pos hc] at h1; exact Or.inl h1
    · rw [if_neg hc] at h1
      rcases List.mem_append.mp h1 with hl | hr
      · exact Or.inl hl
      · exact Or.inr (Or.inl (List.mem_singleton.mp hr))
  · exact Or.inr (Or.inr h2)

theorem servicePortsLoop_value_mono (ps : List Port) (result : List ServicePort) (n : Nat)
    (h : n ∈ result.map (fun sp => sp.Port)) :
    n ∈ (servicePortsLoop ps result).map (fun sp => sp.Port) := by
  obtain ⟨d, hd⟩ := servicePortsLoop_mono ps result
  rw [hd]
  simp only [List.map_append, List.mem_append]
  exact Or.inl h

theorem servicePortsLoop_contains (ps : List Port) :
    ∀ result, ∀ p ∈ ps,
      p.ContainerPort ∈ (servicePortsLoop ps result).map (fun sp => sp.Port) ∧
      (p.HostPort ≠ 0 → p.HostPort ∈ (servicePortsLoop ps result).map (fun sp => sp.Port)) := by
  induction ps with
  | nil => intro result p hp; exact absurd hp (List.not_mem_nil p)
  | cons p0 ps ih =>
      intro result p hp
      rcases List.mem_cons.mp hp with hp | hp
      · subst hp
        rw [servicePortsLoop]
        constructor
        · exact servicePortsLoop_value_mono ps _ _ (servicePortsStep_contains_container p result)
        · intro h0
          exact servicePortsLoop_value_mono ps _ _ (servicePortsStep_contains_host p result h0)
      · rw [servicePortsLoop]
        exact ih (servicePortsStep p0 result) p hp

theorem servicePortsLoop_provenance (ps : List Port) :
    ∀ result, ∀ sp ∈ servicePortsLoop ps result,
      sp ∈ result ∨ ∃ p ∈ ps, sp = containerPortEntry p ∨
        (sp = hostPortEntry p ∧ p.HostPort ≠ 0 ∧ p.ContainerPort ≠ p.HostPort) := by
  induction ps with
  | nil => intro result sp hsp; exact Or.inl hsp
  | cons p0 ps ih =>
      intro result sp hsp
      rw [servicePortsLoop] at hsp
      rcases ih (servicePortsStep p0 result) sp hsp with hstep | ⟨p, hp, hcase⟩
      · rcases servicePortsStep_provenance p0 result sp hstep with hl | hc
        · exact Or.inl hl
        · exact Or.inr ⟨p0, List.mem_cons_self p0 ps, hc⟩
      · exact Or.inr ⟨p, List.mem_cons_of_mem p0 hp, hcase⟩

/-- The property of C8: the emitted service ports carry pairwise-distinct
numeric port values; every container port value of the service is present;
every non-zero host port value is present; and every emitted entry is either
the container entry of some declared port (port and target both the
container port, name from the container port twice and the lowercased
protocol) or the additional host entry of a declared port whose non-zero
host port differs from its container port (port the host port, target the
container port, name from both numbers and the protocol). -/
def ServicePortsDedupSpec (svc : Service) : Prop :=
  ((translateServicePorts svc).map (fun sp => sp.Port)).Nodup ∧
  (∀ p ∈ svc.Ports, p.ContainerPort ∈ (translateServicePorts svc).map (fun sp => sp.Port)) ∧
  (∀ p ∈ svc.Ports, p.HostPort ≠ 0 →
    p.HostPort ∈ (translateServicePorts svc).map (fun sp => sp.Port)) ∧
  (∀ sp ∈ translateServicePorts svc, ∃ p ∈ svc.Ports,
    sp = containerPortEntry p ∨
      (sp = hostPortEntry p ∧ p.HostPort ≠ 0 ∧ p.ContainerPort ≠ p.HostPort))

/-- C8: translateServicePorts emits at most one ServicePort per numeric
port value, emits the container entry for each declared port value unless
that value is already present, and an additional host entry for each
distinct non-zero host port unless the host value is already present. -/
theorem translateServicePorts_dedup (svc : Service) : ServicePortsDedupSpec svc := by
  refine ⟨?_, ?_, ?_, ?_⟩
  · exact servicePortsLoop_nodup svc.Ports [] (by simp)
  · intro p hp
    exact (servicePortsLoop_contains svc.Ports [] p hp).1
  · intro p hp h0
    exact (servicePortsLoop_contains svc.Ports [] p hp).2 h0
  · intro sp hsp
    rcases servicePortsLoop_provenance svc.Ports [] sp hsp with habs | hgood
    · exact absurd habs (List.not_mem_nil sp)
    · exact hgood

/-- Concrete service with one port publishing host 8080 onto container 80. -/
def svcHostPort : Service :=
  { emptyService with
    Ports := [{ HostPort := 8080, ContainerPort := 80, Protocol := "TCP" }] }

/-- Witness for C8 at the concrete service above. -/
theorem translateServicePorts_dedup_witness : ServicePortsDedupSpec svcHostPort :=
  translateServicePorts_dedup svcHostPort

/-! ## Update strategy resolution (source lines 1674-1759) -/

/-- Single quote character, used inside generated error messages. -/
def squote : String := String.singleton (Char.ofNat 39)

/-- updateStrategy constant rolling. -/
def rollingUpdateStrategy : String := "rolling"

/-- updateStrategy constant recreate. -/
def recreateUpdateStrategy : String := "recreate"

/-- updateStrategy constant on-delete. -/
def onDeleteUpdateStrategy : String := "on-delete"

/-- updateStrategyGetter interface: validate yields the error of the source
(none meaning a nil error, that is, a valid value) and getDefault the
kind-specific default. -/
structure StrategyGetter where
  validate : String → Option String
  getDefault : String

/-- deploymentStrategyGetter: valid values rolling and recreate, default
recreate. -/
def deploymentStrategyGetter : StrategyGetter :=
  { validate := fun u =>
      if u ≠ rollingUpdateStrategy ∧ u ≠ recreateUpdateStrategy then
        some ("invalid deployment update strategy: " ++ squote ++ u ++ squote)
      else none,
    getDefault := recreateUpdateStrategy }

/-- statefulSetStrategyGetter: valid values rolling and on-delete, default
rolling. -/
def statefulSetStrategyGetter : StrategyGetter :=
  { validate := fun u =>
      if u ≠ rollingUpdateStrategy ∧ u ≠ onDeleteUpdateStrategy then
        some ("invalid statefulset update strategy: " ++ squote ++ u ++ squote)
      else none,
    getDefault := rollingUpdateStrategy }

/-- Source function getUpdateStrategyByAnnotation (renamed because of the
naming rules of this development): the annotation value if the key is set,
the empty string otherwise. -/
def getUpdateStrategyFromAnnotations (svc : Service) : String :=
  match lookupAssoc svc.Annotations OktetoComposeUpdateStrategyKey with
  | some v => v
  | none => ""

/-- getUpdateStrategyByEnvVar: os.Getenv is environment input, passed here
as the env parameter; yields the value if non-empty. -/
def getUpdateStrategyByEnvVar (env : String) : String :=
  if env ≠ "" then env else ""

/-- getUpdateStrategy: follows the source control flow (annotation checked
first, falling to the env var on absence or validation failure, falling to
the default otherwise); the two early returns of the source become the
first two branches of this conditional chain. -/
def getUpdateStrategy (svc : Service) (env : String) (strategy : StrategyGetter) : String :=
  if getUpdateStrategyFromAnnotations svc ≠ "" ∧
      strategy.validate (getUpdateStrategyFromAnnotations svc) = none then
    getUpdateStrategyFromAnnotations svc
  else if getUpdateStrategyByEnvVar env ≠ "" ∧
      strategy.validate (getUpdateStrategyByEnvVar env) = none then
    getUpdateStrategyByEnvVar env
  else strategy.getDefault

/-- Precedence property of C7 for one strategy getter: annotation value if
present (and non-empty) and valid, else the process-wide override if
non-empty and valid, else the getter default; an invalid or empty value at
one level falls through to the next. -/
def UpdateStrategyPrecedence (svc : Service) (env : String) (G : StrategyGetter) : Prop :=
  (∀ v, lookupAssoc svc.Annotations OktetoComposeUpdateStrategyKey = some v →
     v ≠ "" → G.validate v = none → getUpdateStrategy svc env G = v) ∧
  ((∀ v, lookupAssoc svc.Annotations OktetoComposeUpdateStrategyKey = some v →
      v = "" ∨ G.validate v ≠ none) →
    env ≠ "" → G.validate env = none → getUpdateStrategy svc env G = env) ∧
  ((∀ v, lookupAssoc svc.Annotations OktetoComposeUpdateStrategyKey = some v →
      v = "" ∨ G.validate v ≠ none) →
    (env = "" ∨ G.validate env ≠ none) → getUpdateStrategy svc env G = G.getDefault)

theorem updateStrategy_annotation_fallthrough (svc : Service) (G : StrategyGetter)
    (habs : ∀ v, lookupAssoc svc.Annotations OktetoComposeUpdateStrategyKey = some v →
      v = "" ∨ G.validate v ≠ none) :
    ¬(getUpdateStrategyFromAnnotations svc ≠ "" ∧
      G.validate (getUpdateStrategyFromAnnotations svc) = none) := by
  intro hcon
  match hl : lookupAssoc svc.Annotations OktetoComposeUpdateStrategyKey with
  | none =>
      have : getUpdateStrategyFromAnnotations svc = "" := by
        simp [getUpdateStrategyFromAnnotations, hl]
      exact hcon.1 this
  | some v =>
      have hv : getUpdateStrategyFromAnnotations svc = v := by
        simp [getUpdateStrategyFromAnnotations, hl]
      rcases habs v hl with he | hbad
      · exact hcon.1 (hv.trans he)
      · exact hbad (hv ▸ hcon.2)

/-- C7: the resolved update strategy is the per-service annotation value if
present and valid for the kind, else the process-wide override if present
and valid, else the kind default; the deployment getter defaults to
recreate and accepts exactly rolling and recreate, the statefulset getter
defaults to rolling and accepts exactly rolling and on-delete. -/
theorem getUpdateStrategy_precedence (svc : Service) (env : String) :
    (∀ G, UpdateStrategyPrecedence svc env G) ∧
    deploymentStrategyGetter.getDefault = recreateUpdateStrategy ∧
    statefulSetStrategyGetter.getDefault = rollingUpdateStrategy ∧
    (∀ v, deploymentStrategyGetter.validate v = none ↔
      (v = rollingUpdateStrategy ∨ v = recreateUpdateStrategy)) ∧
    (∀ v, statefulSetStrategyGetter.validate v = none ↔
      (v = rollingUpdateStrategy ∨ v = onDeleteUpdateStrategy)) := by
  refine ⟨?_, rfl, rfl, ?_, ?_⟩
  · intro G
    refine ⟨?_, ?_, ?_⟩
    · intro v hv hne hval
      have ha : getUpdateStrategyFromAnnotations svc = v := by
        simp [getUpdateStrategyFromAnnotations, hv]
      rw [getUpdateStrategy, ha, if_pos ⟨hne, hval⟩]
    · intro habs henv hval
      have hno := updateStrategy_annotation_fallthrough svc G habs
      have he : getUpdateStrategyByEnvVar env = env := by
        simp [getUpdateStrategyByEnvVar, henv]
      rw [getUpdateStrategy, if_neg hno, he, if_pos ⟨henv, hval⟩]
    · intro habs henv
      have hno := updateStrategy_annotation_fallthrough svc G habs
      rw [getUpdateStrategy, if_neg hno, if_neg ?_]
      intro hcon
      rcases henv with he | hbad
      · have : getUpdateStrategyByEnvVar env = "" := by
          simp [getUpdateStrategyByEnvVar, he]
        exact hcon.1 this
      · have he2 : getUpdateStrategyByEnvVar env = env := by
          by_cases hz : env = ""
          · rcases hcon with ⟨hc1, _⟩
            simp [getUpdateStrategyByEnvVar, hz] at hc1
          · simp [getUpdateStrategyByEnvVar, hz]
        exact hbad (he2 ▸ hcon.2)
  · intro v
    by_cases h1 : v = rollingUpdateStrategy
    · simp [deploymentStrategyGetter, h1]
    · by_cases h2 : v = recreateUpdateStrategy
      · simp [deploymentStrategyGetter, h1, h2]
      · simp [deploymentStrategyGetter, h1, h2]
  · intro v
    by_cases h1 : v = rollingUpdateStrategy
    · simp [statefulSetStrategyGetter, h1]
    · by_cases h2 : v = onDeleteUpdateStrategy
      · simp [statefulSetStrategyGetter, h1, h2]
      · simp [statefulSetStrategyGetter, h1, h2]

/-- Concrete service carrying a rolling update-strategy annotation. -/
def svcRollingAnnot : Service :=
  { emptyService with Annotations := [(OktetoComposeUpdateStrategyKey, "rolling")] }

/-- Witness for C7: the annotation wins at a concrete service. -/
theorem getUpdateStrategy_precedence_witness :
    getUpdateStrategy svcRollingAnnot "" deploymentStrategyGetter = "rolling" :=
  ((getUpdateStrategy_precedence svcRollingAnnot "").1 deploymentStrategyGetter).1
    "rolling" (by decide) (by decide) (by decide)

/-! ## translateConfigMap and base64 (source lines 1003-1016, 1063-1077)

encoding/base64 StdEncoding is embedded over byte lists (Nat below 256):
standard alphabet, 3-byte groups to 4 characters, padded tail groups. -/

/-- The standard base64 alphabet. -/
def base64Alphabet : List Char :=
  "ABCDEFGHIJKLMNOPQRSTUVWXYZabcdefghijklmnopqrstuvwxyz0123456789+/".toList

/-- The base64 padding character. -/
def padChar : Char := '='

/-- Character of one six-bit value. -/
def valToChar (v : Nat) : Char := base64Alphabet.getD v 'A'

/-- Six-bit value of one character, none for characters outside the
alphabet. -/
def charToVal (c : Char) : Option Nat := base64Alphabet.findIdx? (fun ch => ch = c)

theorem charToVal_valToChar : ∀ v, v < 64 → charToVal (valToChar v) = some v := by decide

theorem valToChar_ne_pad : ∀ v, v < 64 → valToChar v ≠ padChar := by decide

/-- base64.StdEncoding.EncodeToString over bytes: full groups of three,
then a padded two-byte or one-byte tail. -/
def b64encodeBytes : List Nat → List Char
  | a :: b :: c :: rest =>
      valToChar (a / 4) :: valToChar ((a % 4) * 16 + b / 16) ::
      valToChar ((b % 16) * 4 + c / 64) :: valToChar (c % 64) :: b64encodeBytes rest
  | [a, b] =>
      [valToChar (a / 4), valToChar ((a % 4) * 16 + b / 16), valToChar ((b % 16) * 4), padChar]
  | [a] =>
      [valToChar (a / 4), valToChar ((a % 4) * 16), padChar, padChar]
  | [] => []

/-- base64 decoding of a character list: inverse of the encoder, none on
malformed input (wrong length, unknown character, misplaced padding). -/
def b64decodeBytes : List Char → Option (List Nat)
  | [] => some []
  | s1 :: s2 :: s3 :: s4 :: rest =>
    match charToVal s1, charToVal s2 with
    | some v1, some v2 =>
      if s3 = padChar then
        if s4 = padChar ∧ rest = [] then some [v1 * 4 + v2 / 16] else none
      else
        match charToVal s3 with
        | some v3 =>
          if s4 = padChar then
            if rest = [] then some [v1 * 4 + v2 / 16, (v2 % 16) * 16 + v3 / 4] else none
          else
            match charToVal s4, b64decodeBytes rest with
            | some v4, some bs =>
                some ((v1 * 4 + v2 / 16) :: ((v2 % 16) * 16 + v3 / 4) ::
                  ((v3 % 4) * 64 + v4) :: bs)
            | _, _ => none
        | none => none
    | _, _ => none
  | _ => none

theorem b64_roundtrip (m : List Nat) (h : ∀ b ∈ m, b < 256) :
    b64decodeBytes (b64encodeBytes m) = some m := by
  match m with
  | [] => rfl
  | [a] =>
      have ha : a < 256 := h a (by simp)
      have e1 : charToVal (valToChar (a / 4)) = some (a / 4) :=
        charToVal_valToChar _ (by omega)
      have e2 : charToVal (valToChar ((a % 4) * 16)) = some ((a % 4) * 16) :=
        charToVal_valToChar _ (by omega)
      simp [b64encodeBytes, b64decodeBytes, e1, e2]
      omega
  | [a, b] =>
      have ha : a < 256 := h a (by simp)
      have hb : b < 256 := h b (by simp)
      have e1 : charToVal (valToChar (a / 4)) = some (a / 4) :=
        charToVal_valToChar _ (by omega)
      have e2 : charToVal (valToChar ((a % 4) * 16 + b / 16)) = some ((a % 4) * 16 + b / 16) :=
        charToVal_valToChar _ (by omega)
      have e3 : charToVal (valToChar ((b % 16) * 4)) = some ((b % 16) * 4) :=
        charToVal_valToChar _ (by omega)
      have n3 : valToChar ((b % 16) * 4) ≠ padChar := valToChar_ne_pad _ (by omega)
      simp [b64encodeBytes, b64decodeBytes, e1, e2, e3, n3]
      omega
  | a :: b :: c :: d :: rest2 =>
      have ha : a < 256 := h a (by simp)
      have hb : b < 256 := h b (by simp)
      have hc : c < 256 := h c (by simp)
      have ih := b64_roundtrip (d :: rest2) (fun x hx => h x (by simp [hx]))
      have e1 : charToVal (valToChar (a / 4)) = some (a / 4) :=
        charToVal_valToChar _ (by omega)
      have e2 : charToVal (valToChar ((a % 4) * 16 + b / 16)) = some ((a % 4) * 16 + b / 16) :=
        charToVal_valToChar _ (by omega)
      have e3 : charToVal (valToChar ((b % 16) * 4 + c / 64)) = some ((b % 16) * 4 + c / 64) :=
        charToVal_valToChar _ (by omega)
      have e4 : charToVal (valToChar (c % 64)) = some (c % 64) :=
        charToVal_valToChar _ (by omega)
      have n3 : valToChar ((b % 16) * 4 + c / 64) ≠ padChar := valToChar_ne_pad _ (by omega)
      have n4 : valToChar (c % 64) ≠ padChar := valToChar_ne_pad _ (by omega)
      simp [b64encodeBytes, b64decodeBytes, e1, e2, e3, e4, n3, n4, ih]
      omega
  | [a, b, c] =>
      have ha : a < 256 := h a (by simp)
      have hb : b < 256 := h b (by simp)
      have hc : c < 256 := h c (by simp)
      have e1 : charToVal (valToChar (a / 4)) = some (a / 4) :=
        charToVal_valToChar _ (by omega)
      have e2 : charToVal (valToChar ((a % 4) * 16 + b / 16)) = some ((a % 4) * 16 + b / 16) :=
        charToVal_valToChar _ (by omega)
      have e3 : charToVal (valToChar ((b % 16) * 4 + c / 64)) = some ((b % 16) * 4 + c / 64) :=
        charToVal_valToChar _ (by omega)
      have e4 : charToVal (valToChar (c % 64)) = some (c % 64) :=
        charToVal_valToChar _ (by omega)
      have n3 : valToChar ((b % 16) * 4 + c / 64) ≠ padChar := valToChar_ne_pad _ (by omega)
      have n4 : valToChar (c % 64) ≠ padChar := valToChar_ne_pad _ (by omega)
      simp [b64encodeBytes, b64decodeBytes, e1, e2, e3, e4, n3, n4]
      omega

/-- base64.StdEncoding.EncodeToString. -/
def b64encodeString (bytes : List Nat) : String := String.mk (b64encodeBytes bytes)

/-- base64 string decoding. -/
def b64decodeString (s : String) : Option (List Nat) := b64decodeBytes s.data

theorem b64_string_roundtrip (m : List Nat) (h : ∀ b ∈ m, b < 256) :
    b64decodeString (b64encodeString m) = some m := by
  unfold b64decodeString b64encodeString
  simpa using b64_roundtrip m h

/-- Data field constant name. -/
def NameField : String := "name"

/-- Data field constant yaml. -/
def YamlField : String := "yaml"

/-- Data field constant compose. -/
def ComposeField : String := "compose"

/-- strconv.FormatBool. -/
def strconvFormatBool (b : Bool) : String := if b then "true" else "false"

/-- Modelled from the spec: model.GetStackConfigMapName (not part of the
available source) keys the configuration record by the stack name. -/
def getStackConfigMapName (stackName : String) : String := "okteto-" ++ stackName

/-- apiv1.ConfigMap as populated by translateConfigMap. -/
structure ConfigMap where
  Name : String
  Labels : List (String × String)
  Data : List (String × String)
deriving DecidableEq

/-- translateConfigMap: record named from the stack name, stack marker
label, and a data map holding the stack name, the base64 of the raw
manifest, and the compose flag. -/
def translateConfigMap (s : Stack) : ConfigMap :=
  { Name := getStackConfigMapName s.Name,
    Labels := [(StackLabel, "true")],
    Data := [(NameField, s.Name),
             (YamlField, b64encodeString s.Manifest),
             (ComposeField, strconvFormatBool s.IsCompose)] }

/-- The property of C9: the data map of the persisted configuration record
carries exactly the keys name, yaml and compose; the name field equals the
stack name; the compose field is the string form of the IsCompose flag; and
base64-decoding the yaml field yields the raw manifest bytes back. -/
def ConfigMapRecordSpec (s : Stack) : Prop :=
  (translateConfigMap s).Data.map Prod.fst = [NameField, YamlField, ComposeField] ∧
  lookupAssoc (translateConfigMap s).Data NameField = some s.Name ∧
  lookupAssoc (translateConfigMap s).Data ComposeField = some (strconvFormatBool s.IsCompose) ∧
  (∃ y, lookupAssoc (translateConfigMap s).Data YamlField = some y ∧
    b64decodeString y = some s.Manifest)

/-- C9: the persisted configuration record holds exactly the fields name,
yaml and compose, with name the stack name, compose the string form of the
IsCompose flag, and yaml the base64 of the manifest, which decodes back to
the manifest bytes. -/
theorem translateConfigMap_fields (s : Stack) (h : ∀ b ∈ s.Manifest, b < 256) :
    ConfigMapRecordSpec s := by
  refine ⟨rfl, ?_, ?_, ?_⟩
  · simp [translateConfigMap, lookupAssoc]
  · simp [translateConfigMap, lookupAssoc, NameField, YamlField, ComposeField]
  · refine ⟨b64encodeString s.Manifest, ?_, b64_string_roundtrip s.Manifest h⟩
    simp [translateConfigMap, lookupAssoc, NameField, YamlField]

/-- Concrete stack with a small manifest for the C9 witness. -/
def stackB64 : Stack :=
  { Name := "vote", Namespace := "ns", Services := [],
    Manifest := [0, 1, 2, 77, 250, 255], IsCompose := true }

/-- Witness for C9 at the concrete stack above. -/
theorem translateConfigMap_fields_witness :
    (∀ b ∈ stackB64.Manifest, b < 256) ∧ ConfigMapRecordSpec stackB64 :=
  ⟨by decide, translateConfigMap_fields stackB64 (by decide)⟩

/-! ## Labels and the translated network-endpoint object
(source lines 1389-1405, 1459-1500) -/

/-- translateLabels: ownership and identity labels, then the user labels
overlaid, then one co-location marker per local-path volume.  Go map
assignments become mapInsert folds. -/
def translateLabels (svcName : String) (s : Stack) : List (String × String) :=
  (svcOf s svcName).Volumes.foldl
    (fun acc v =>
      if v.LocalPath ≠ "" then
        mapInsert acc (StackVolumeNameLabel ++ "-" ++ v.LocalPath) "true"
      else acc)
    ((svcOf s svcName).Labels.foldl (fun acc kv => mapInsert acc kv.1 kv.2)
      (mapInsert (mapInsert [] StackNameLabel s.Name) StackServiceNameLabel svcName))

/-- translateLabelSelector: the two identity labels. -/
def translateLabelSelector (svcName : String) (s : Stack) : List (String × String) :=
  [(StackNameLabel, s.Name), (StackServiceNameLabel, svcName)]

/-- getAnnotations: the utils.IsOktetoRepo check is environment input and is
passed as the isOktetoRepo parameter. -/
def getAnnotations (isOktetoRepo : Bool) : List (String × String) :=
  if isOktetoRepo then [(OktetoSampleKey, "true")] else []

/-- translateAnnotations: computed annotations with the user annotations
overlaid. -/
def translateAnnotations (isOktetoRepo : Bool) (svc : Service) : List (String × String) :=
  svc.Annotations.foldl (fun acc kv => mapInsert acc kv.1 kv.2) (getAnnotations isOktetoRepo)

/-! ## Cluster state model

The claims about deployment and health observe one namespace, so cluster
objects are keyed by kind and name (workloads), by name (network-endpoint
services), or unkeyed (pods). -/

/-- Workload kinds this package creates. -/
inductive Kind
  | Deployment
  | StatefulSet
  | Job
deriving DecidableEq

/-- Observed status counters of a workload (the union of the fields of the
three kinds that this package reads). -/
structure WorkloadStatus where
  active : Nat
  succeeded : Nat
  failed : Nat
  readyReplicas : Nat
deriving DecidableEq

/-- One workload object in the cluster. -/
structure Workload where
  kind : Kind
  name : String
  labels : List (String × String)
  status : WorkloadStatus
deriving DecidableEq

/-- One corev1.Service (plain network-endpoint object) in the cluster. -/
structure K8sService where
  name : String
  labels : List (String × String)
  annotations : List (String × String)
  selector : List (String × String)
  ports : List ServicePort
deriving DecidableEq

/-- One pod in the cluster: its labels and the restart counts of its
container statuses. -/
structure Pod where
  labels : List (String × String)
  containerRestartCounts : List Nat
deriving DecidableEq

/-- The observable cluster state. -/
structure Cluster where
  workloads : List Workload
  k8sServices : List K8sService
  pods : List Pod
deriving DecidableEq

/-- translateService: the network-endpoint object of a service (its
namespace field is implicit in the single-namespace cluster model). -/
def translateService (isOktetoRepo : Bool) (svcName : String) (s : Stack) : K8sService :=
  { name := svcName,
    labels := translateLabels svcName s,
    annotations := translateAnnotations isOktetoRepo (svcOf s svcName),
    selector := translateLabelSelector svcName s,
    ports := translateServicePorts (svcOf s svcName) }

/-! ## Resource kind selection and deploySvc (claim C2) -/

/-- Modelled from the spec: whether a service runs to completion (its job
check), from the kind selection rule of the Resource Kind Selector. -/
def isJobService (svc : Service) : Bool := svc.RestartPolicy = RestartPolicyNever

/-- Modelled from the spec: whether any volume of the service has a
non-empty LocalPath. -/
def hasLocalPathVolume (svc : Service) : Bool := svc.Volumes.any (fun v => v.LocalPath ≠ "")

/-- Modelled from the spec: the Resource Kind Selector.  Job if the restart
policy is Never, else StatefulSet if any volume has a non-empty LocalPath,
else Deployment; a total function of the service alone. -/
def kindOfService (svc : Service) : Kind :=
  if isJobService svc then Kind.Job
  else if hasLocalPathVolume svc then Kind.StatefulSet
  else Kind.Deployment

/-- Workload of the cluster with the given kind and name. -/
def findWorkload (c : Cluster) (k : Kind) (n : String) : Option Workload :=
  c.workloads.find? (fun w => decide (w.kind = k ∧ w.name = n))

/-- Idempotent create-or-update of one workload object: replace the object
with the same kind and name if it exists, append it otherwise. -/
def upsertWorkload (c : Cluster) (w : Workload) : Cluster :=
  if (findWorkload c w.kind w.name).isSome then
    { c with workloads :=
        c.workloads.map (fun o => if o.kind = w.kind ∧ o.name = w.name then w else o) }
  else
    { c with workloads := c.workloads ++ [w] }

/-- Modelled from the spec: the workload object deploySvc writes for a
service, of the selected kind, carrying the translated labels with the
stack-name and deployed-by labels refreshed to the stack name. -/
def deployedWorkload (st : Stack) (svcName : String) (svc : Service) : Workload :=
  { kind := kindOfService svc, name := svcName,
    labels := mapInsert (mapInsert (translateLabels svcName st) StackNameLabel st.Name)
      DeployedByLabel st.Name,
    status := { active := 0, succeeded := 0, failed := 0, readyReplicas := 0 } }

/-- Modelled from the spec: deploySvc selects the workload kind with the
Resource Kind Selector and creates or updates the object of that kind named
after the service. -/
def deploySvc (st : Stack) (svcName : String) (c : Cluster) : Cluster :=
  match lookupAssoc st.Services svcName with
  | none => c
  | some svc => upsertWorkload c (deployedWorkload st svcName svc)

theorem find?_replace_self (l : List Workload) (w : Workload)
    (h : (l.find? (fun o => decide (o.kind = w.kind ∧ o.name = w.name))).isSome) :
    (l.map (fun o => if o.kind = w.kind ∧ o.name = w.name then w else o)).find?
      (fun o => decide (o.kind = w.kind ∧ o.name = w.name)) = some w := by
  induction l with
  | nil => simp [List.find?] at h
  | cons o l ih =>
      by_cases ho : o.kind = w.kind ∧ o.name = w.name
      · simp [List.find?, ho]
      · rw [List.map_cons, if_neg ho]
        rw [List.find?_cons_of_neg _ (by simp [ho])]
        rw [List.find?_cons_of_neg _ (by simp [ho])] at h
        exact ih h

theorem find?_append_self (l : List Workload) (w : Workload)
    (h : (l.find? (fun o => decide (o.kind = w.kind ∧ o.name = w.name))).isSome = false) :
    ((l ++ [w]).find? (fun o => decide (o.kind = w.kind ∧ o.name = w.name))) = some w := by
  induction l with
  | nil => simp [List.find?]
  | cons o l ih =>
      by_cases ho : o.kind = w.kind ∧ o.name = w.name
      · rw [List.find?_cons_of_pos _ (by simp [ho])] at h
        simp at h
      · rw [List.find?_cons_of_neg _ (by simp [ho])] at h
        rw [List.cons_append, List.find?_cons_of_neg _ (by simp [ho])]
        exact ih h

theorem findWorkload_upsert_self (c : Cluster) (w : Workload) :
    findWorkload (upsertWorkload c w) w.kind w.name = some w := by
  unfold upsertWorkload
  by_cases h : (findWorkload c w.kind w.name).isSome
  · rw [if_pos h]
    exact find?_replace_self c.workloads w h
  · rw [if_neg h]
    refine find?_append_self c.workloads w ?_
    simp only [Bool.not_eq_true] at h
    exact h

theorem findWorkload_upsert_other (c : Cluster) (w : Workload) (k : Kind) (n : String)
    (hne : ¬(w.kind = k ∧ w.name = n)) :
    findWorkload (upsertWorkload c w) k n = findWorkload c k n := by
  unfold upsertWorkload
  by_cases h : (findWorkload c w.kind w.name).isSome
  · rw [if_pos h]
    unfold findWorkload
    generalize c.workloads = l
    induction l with
    | nil => simp
    | cons o l ih =>
        by_cases ho : o.kind = w.kind ∧ o.name = w.name
        · rw [List.map_cons, if_pos ho]
          have hon : ¬(o.kind = k ∧ o.name = n) := by
            intro hcon
            exact hne ⟨ho.1 ▸ hcon.1, ho.2 ▸ hcon.2⟩
          rw [List.find?_cons_of_neg _ (by simp [hne]),
            List.find?_cons_of_neg _ (by simp [hon])]
          exact ih
        · rw [List.map_cons, if_neg ho]
          by_cases hok : o.kind = k ∧ o.name = n
          · rw [List.find?_cons_of_pos _ (by simp [hok]),
              List.find?_cons_of_pos _ (by simp [hok])]
          · rw [List.find?_cons_of_neg _ (by simp [hok]),
              List.find?_cons_of_neg _ (by simp [hok])]
            exact ih
  · rw [if_neg h]
    unfold findWorkload
    rw [List.find?_append]
    have : ([w].find? (fun o => decide (o.kind = k ∧ o.name = n))) = none := by
      simp [List.find?, hne]
    rw [this]
    simp

/-- The property of C2: for a service of the stack, the selected kind is
Job when the restart policy is Never, else StatefulSet when some volume has
a non-empty LocalPath, else Deployment; deploying the service puts an
object of exactly that kind and name in the cluster, and objects of the
other kinds under the same name are untouched. -/
def KindSelectionSpec (st : Stack) (svcName : String) (c : Cluster) : Prop :=
  ∀ svc, lookupAssoc st.Services svcName = some svc →
    (kindOfService svc =
      (if svc.RestartPolicy = RestartPolicyNever then Kind.Job
       else if svc.Volumes.any (fun v => v.LocalPath ≠ "") then Kind.StatefulSet
       else Kind.Deployment)) ∧
    findWorkload (deploySvc st svcName c) (kindOfService svc) svcName =
      some (deployedWorkload st svcName svc) ∧
    (∀ k, k ≠ kindOfService svc →
      findWorkload (deploySvc st svcName c) k svcName = findWorkload c k svcName)

/-- C2: the workload kind is a total function of the service alone, given
by the selection table, and deploySvc creates or updates an object of
exactly that kind. -/
theorem deploySvc_kind_selection (st : Stack) (svcName : String) (c : Cluster) :
    KindSelectionSpec st svcName c := by
  intro svc hsvc
  refine ⟨?_, ?_, ?_⟩
  · unfold kindOfService isJobService hasLocalPathVolume
    by_cases hn : svc.RestartPolicy = RestartPolicyNever
    · simp [hn]
    · simp [hn]
  · unfold deploySvc
    rw [hsvc]
    exact findWorkload_upsert_self c (deployedWorkload st svcName svc)
  · intro k hk
    unfold deploySvc
    rw [hsvc]
    exact findWorkload_upsert_other c (deployedWorkload st svcName svc) k svcName
      (by intro hcon; exact hk hcon.1.symm)

/-- Concrete always-restart service without volumes (first row of the kind
selection table) in a stack, for the C2 witness. -/
def stackAlways : Stack :=
  { Name := "stack-test", Namespace := "ns",
    Services := [("test", { emptyService with
      Image := "test_image", RestartPolicy := RestartPolicyAlways })],
    Manifest := [], IsCompose := false }

/-- Witness for C2 at the concrete stack above and the empty cluster. -/
theorem deploySvc_kind_selection_witness :
    KindSelectionSpec stackAlways "test" { workloads := [], k8sServices := [], pods := [] } :=
  deploySvc_kind_selection stackAlways "test" _

/-! ## deployK8sService (claim C3) -/

/-- Network-endpoint service of the cluster by name. -/
def lookupK8sService (c : Cluster) (n : String) : Option K8sService :=
  c.k8sServices.find? (fun s => decide (s.name = n))

/-- Modelled from the spec: refresh of the stack-name and deployed-by
labels to the current stack name on create and update. -/
def stampDeployLabels (obj : K8sService) (stackName : String) : K8sService :=
  { obj with labels :=
      mapInsert (mapInsert obj.labels StackNameLabel stackName) DeployedByLabel stackName }

/-- The object deployK8sService writes: the translated service with the
ownership labels refreshed. -/
def deployedK8sService (isOktetoRepo : Bool) (st : Stack) (svcName : String) : K8sService :=
  stampDeployLabels (translateService isOktetoRepo svcName st) st.Name

/-- In-place update of the service object with the given name. -/
def updateK8sService (c : Cluster) (svcName : String) (obj : K8sService) : Cluster :=
  { c with k8sServices := c.k8sServices.map (fun o => if o.name = svcName then obj else o) }

/-- Modelled from the spec: deployK8sService fetches the object by name;
if absent it creates the translated object; if present and owned by a
different stack (a stack-name label with another value) it performs no
mutation and returns success; otherwise (same stack, or no stack-name
label yet) it updates the object in place, the ownership labels refreshed
to the current stack name. -/
def deployK8sService (isOktetoRepo : Bool) (st : Stack) (svcName : String) (c : Cluster) :
    Cluster :=
  match lookupK8sService c svcName with
  | none =>
      { c with k8sServices := c.k8sServices ++ [deployedK8sService isOktetoRepo st svcName] }
  | some old =>
      match lookupAssoc old.labels StackNameLabel with
      | some owner =>
          if owner = st.Name then
            updateK8sService c svcName (deployedK8sService isOktetoRepo st svcName)
          else c
      | none => updateK8sService c svcName (deployedK8sService isOktetoRepo st svcName)

theorem k8sfind_replace_self (l : List K8sService) (n : String) (obj : K8sService)
    (hobj : obj.name = n)
    (h : (l.find? (fun s => decide (s.name = n))).isSome) :
    (l.map (fun o => if o.name = n then obj else o)).find?
      (fun s => decide (s.name = n)) = some obj := by
  induction l with
  | nil => simp [List.find?] at h
  | cons o l ih =>
      by_cases ho : o.name = n
      · rw [List.map_cons, if_pos ho]
        exact List.find?_cons_of_pos _ (by simp [hobj])
      · rw [List.map_cons, if_neg ho]
        rw [List.find?_cons_of_neg _ (by simp [ho])]
        rw [List.find?_cons_of_neg _ (by simp [ho])] at h
        exact ih h

theorem k8sfind_append_self (l : List K8sService) (n : String) (obj : K8sService)
    (hobj : obj.name = n)
    (h : l.find? (fun s => decide (s.name = n)) = none) :
    ((l ++ [obj]).find? (fun s => decide (s.name = n))) = some obj := by
  induction l with
  | nil => simp [List.find?, hobj]
  | cons o l ih =>
      by_cases ho : o.name = n
      · rw [List.find?_cons_of_pos _ (by simp [ho])] at h
        exact absurd h (by simp)
      · rw [List.find?_cons_of_neg _ (by simp [ho])] at h
        rw [List.cons_append, List.find?_cons_of_neg _ (by simp [ho])]
        exact ih h

/-- The property of C3: an existing object whose stack-name label carries a
different stack name is left untouched and the whole call is a no-op; an
absent object is created as the translated object with the current stack's
name label; an object labeled with the same stack name is updated to the
translated object, the label remaining the current stack's name; and the
written object always carries the current stack name under the stack-name
label. -/
def DeployK8sServiceSpec (isOktetoRepo : Bool) (st : Stack) (svcName : String) (c : Cluster) :
    Prop :=
  (∀ old owner, lookupK8sService c svcName = some old →
    lookupAssoc old.labels StackNameLabel = some owner → owner ≠ st.Name →
    deployK8sService isOktetoRepo st svcName c = c) ∧
  (lookupK8sService c svcName = none →
    lookupK8sService (deployK8sService isOktetoRepo st svcName c) svcName =
      some (deployedK8sService isOktetoRepo st svcName)) ∧
  (∀ old, lookupK8sService c svcName = some old →
    lookupAssoc old.labels StackNameLabel = some st.Name →
    lookupK8sService (deployK8sService isOktetoRepo st svcName c) svcName =
      some (deployedK8sService isOktetoRepo st svcName)) ∧
  lookupAssoc (deployedK8sService isOktetoRepo st svcName).labels StackNameLabel =
    some st.Name

/-- C3: ownership isolation of deployK8sService (foreign stack-name label
means no mutation), creation with the current stack label when absent, and
update keeping the current stack label when owned by this stack. -/
theorem deployK8sService_ownership (isOktetoRepo : Bool) (st : Stack) (svcName : String)
    (c : Cluster) : DeployK8sServiceSpec isOktetoRepo st svcName c := by
  refine ⟨?_, ?_, ?_, ?_⟩
  · intro old owner hold howner hne
    simp only [deployK8sService, hold, howner, hne, if_false]
  · intro h
    simp only [deployK8sService, h]
    exact k8sfind_append_self c.k8sServices svcName _ rfl h
  · intro old hold howner
    simp only [deployK8sService, hold, howner, if_pos rfl]
    unfold updateK8sService lookupK8sService
    refine k8sfind_replace_self c.k8sServices svcName _ rfl ?_
    unfold lookupK8sService at hold
    simp [hold]
  · unfold deployedK8sService stampDeployLabels
    simp only
    rw [lookupAssoc_mapInsert_ne _ _ _ _ (by decide), lookupAssoc_mapInsert_self]

/-- Concrete scenario of the ownership test: an object named test owned by
stack hola, deployed over by a stack named test. -/
def stackOwner : Stack :=
  { Name := "test", Namespace := "ns",
    Services := [("test", { emptyService with Labels := [("ey", "a")] })],
    Manifest := [], IsCompose := false }

/-- The cluster already holding the foreign-owned service object. -/
def clusterForeign : Cluster :=
  { workloads := [],
    k8sServices := [{ name := "test", labels := [(StackNameLabel, "hola")],
                      annotations := [], selector := [], ports := [] }],
    pods := [] }

/-- Witness for C3 at the concrete foreign-ownership scenario. -/
theorem deployK8sService_ownership_witness :
    DeployK8sServiceSpec false stackOwner "test" clusterForeign :=
  deployK8sService_ownership false stackOwner "test" clusterForeign

/-! ## getErrorDueToRestartLimit (claim C5) -/

/-- Modelled from the spec: the maximum observed container restart count
over the pods carrying the identity labels of the given stack and service. -/
def maxPodRestarts (c : Cluster) (stackName svcName : String) : Nat :=
  (((c.pods.filter (fun p =>
      decide (lookupAssoc p.labels StackNameLabel = some stackName ∧
        lookupAssoc p.labels StackServiceNameLabel = some svcName))).map
    (fun p => p.containerRestartCounts)).flatten).foldl max 0

/-- The error text of the restart-budget violation. -/
def restartLimitMessage (name : String) (n : Nat) : String :=
  "Service " ++ squote ++ name ++ squote ++ " has been restarted " ++ toString n ++
    " times. Please check the logs and try again"

/-- Modelled from the spec: the walk of CheckRestartBudget over the
dependencies of the dependent service, in declaration order: dependencies
with a condition other than healthy are skipped; for a healthy-condition
dependency the maximum restart count of its pods is compared against its
BackOffLimit and the fatal error is returned on reaching it. -/
def restartBudgetGo (st : Stack) (c : Cluster) : List (String × Condition) → Option String
  | [] => none
  | (depName, cond) :: rest =>
      if cond = Condition.healthy then
        match lookupAssoc st.Services depName with
        | none => restartBudgetGo st c rest
        | some depSvc =>
            if depSvc.BackOffLimit ≤ maxPodRestarts c st.Name depName then
              some (restartLimitMessage depName (maxPodRestarts c st.Name depName))
            else restartBudgetGo st c rest
      else restartBudgetGo st c rest

/-- Modelled from the spec: getErrorDueToRestartLimit checks the restart
budget of every healthy-condition dependency of the dependent service. -/
def getErrorDueToRestartLimit (st : Stack) (dependent : String) (c : Cluster) :
    Option String :=
  restartBudgetGo st c (svcOf st dependent).DependsOn

theorem restartBudgetGo_none_of_no_healthy (st : Stack) (c : Cluster)
    (l : List (String × Condition)) (h : ∀ p ∈ l, p.2 ≠ Condition.healthy) :
    restartBudgetGo st c l = none := by
  induction l with
  | nil => rfl
  | cons hd rest ih =>
      obtain ⟨depName, cond⟩ := hd
      have hc : cond ≠ Condition.healthy := h (depName, cond) (by simp)
      rw [restartBudgetGo, if_neg hc]
      exact ih (fun p hp => h p (by simp [hp]))

theorem restartBudgetGo_none_of_below (st : Stack) (c : Cluster)
    (l : List (String × Condition))
    (h : ∀ p ∈ l, p.2 = Condition.healthy →
      ∀ dsvc, lookupAssoc st.Services p.1 = some dsvc →
        maxPodRestarts c st.Name p.1 < dsvc.BackOffLimit) :
    restartBudgetGo st c l = none := by
  induction l with
  | nil => rfl
  | cons hd rest ih =>
      obtain ⟨depName, cond⟩ := hd
      have htail : restartBudgetGo st c rest = none :=
        ih (fun p hp => h p (by simp [hp]))
      by_cases hc : cond = Condition.healthy
      · rw [restartBudgetGo, if_pos hc]
        cases hl : lookupAssoc st.Services depName with
        | none => simp only [hl]; exact htail
        | some dsvc =>
            have hbelow : maxPodRestarts c st.Name depName < dsvc.BackOffLimit := by
              simpa using h (depName, cond) (by simp) hc dsvc hl
            simp only [hl]
            rw [if_neg (by omega)]
            exact htail
      · rw [restartBudgetGo, if_neg hc]
        exact htail

theorem restartBudgetGo_err (st : Stack) (c : Cluster)
    (pre : List (String × Condition)) (dn : String) (post : List (String × Condition))
    (dsvc : Service) (hlook : lookupAssoc st.Services dn = some dsvc)
    (hge : dsvc.BackOffLimit ≤ maxPodRestarts c st.Name dn)
    (hpre : ∀ p ∈ pre, p.2 = Condition.healthy →
      ∀ esvc, lookupAssoc st.Services p.1 = some esvc →
        maxPodRestarts c st.Name p.1 < esvc.BackOffLimit) :
    restartBudgetGo st c (pre ++ (dn, Condition.healthy) :: post) =
      some (restartLimitMessage dn (maxPodRestarts c st.Name dn)) := by
  induction pre with
  | nil =>
      rw [List.nil_append, restartBudgetGo, if_pos rfl]
      simp only [hlook]
      rw [if_pos hge]
  | cons hd pre ih =>
      obtain ⟨depName, cond⟩ := hd
      have htail := ih (fun p hp => hpre p (by simp [hp]))
      by_cases hc : cond = Condition.healthy
      · rw [List.cons_append, restartBudgetGo, if_pos hc]
        cases hl : lookupAssoc st.Services depName with
        | none => simp only [hl]; exact htail
        | some esvc =>
            have hbelow : maxPodRestarts c st.Name depName < esvc.BackOffLimit := by
              simpa using hpre (depName, cond) (by simp) hc esvc hl
            simp only [hl]
            rw [if_neg (by omega)]
            exact htail
      · rw [List.cons_append, restartBudgetGo, if_neg hc]
        exact htail

/-- The property of C5: the restart-budget check yields nil when the
dependent has no healthy-condition dependency; nil when every
healthy-condition dependency stays below its BackOffLimit; and exactly the
documented fatal error naming the first healthy-condition dependency whose
maximum observed restart count reaches its BackOffLimit, with the observed
count in the text. -/
def RestartBudgetSpec (st : Stack) (dependent : String) (c : Cluster) : Prop :=
  ((∀ p ∈ (svcOf st dependent).DependsOn, p.2 ≠ Condition.healthy) →
    getErrorDueToRestartLimit st dependent c = none) ∧
  ((∀ p ∈ (svcOf st dependent).DependsOn, p.2 = Condition.healthy →
      ∀ dsvc, lookupAssoc st.Services p.1 = some dsvc →
        maxPodRestarts c st.Name p.1 < dsvc.BackOffLimit) →
    getErrorDueToRestartLimit st dependent c = none) ∧
  (∀ pre dn post dsvc,
    (svcOf st dependent).DependsOn = pre ++ (dn, Condition.healthy) :: post →
    lookupAssoc st.Services dn = some dsvc →
    dsvc.BackOffLimit ≤ maxPodRestarts c st.Name dn →
    (∀ p ∈ pre, p.2 = Condition.healthy →
      ∀ esvc, lookupAssoc st.Services p.1 = some esvc →
        maxPodRestarts c st.Name p.1 < esvc.BackOffLimit) →
    getErrorDueToRestartLimit st dependent c =
      some (restartLimitMessage dn (maxPodRestarts c st.Name dn)))

/-- C5: the restart-budget check returns nil without a healthy-condition
dependency, nil while the observed maximum restart count stays below the
BackOffLimit, and otherwise exactly the restart-limit error with the
observed count. -/
theorem getErrorDueToRestartLimit_budget (st : Stack) (dependent : String) (c : Cluster) :
    RestartBudgetSpec st dependent c := by
  refine ⟨?_, ?_, ?_⟩
  · intro h
    exact restartBudgetGo_none_of_no_healthy st c _ h
  · intro h
    exact restartBudgetGo_none_of_below st c _ h
  · intro pre dn post dsvc hdeps hlook hge hpre
    unfold getErrorDueToRestartLimit
    rw [hdeps]
    exact restartBudgetGo_err st c pre dn post dsvc hlook hge hpre

/-- The restart-budget test stack: test2 depends on test1 (BackOffLimit 2)
with condition healthy. -/
def stackRestart : Stack :=
  { Name := "test", Namespace := "",
    Services :=
      [("test1", { emptyService with BackOffLimit := 2 }),
       ("test2", { emptyService with DependsOn := [("test1", Condition.healthy)] })],
    Manifest := [], IsCompose := false }

/-- The cluster holding one test1 pod restarted five times. -/
def clusterRestart : Cluster :=
  { workloads := [], k8sServices := [],
    pods := [{ labels := [(StackNameLabel, "test"), (StackServiceNameLabel, "test1")],
               containerRestartCounts := [5] }] }

/-- Witness for C5 at the concrete crash-looping scenario. -/
theorem getErrorDueToRestartLimit_budget_witness :
    RestartBudgetSpec stackRestart "test2" clusterRestart :=
  getErrorDueToRestartLimit_budget stackRestart "test2" clusterRestart

/-! ## AddDependentServicesIfNotPresent (claim C4) -/

/-- Modelled from the spec: whether a dependency currently satisfies its
declared condition, per resource kind as observed by the dependency
resolver: a Job with Active or Succeeded counts is satisfied; a Deployment
or StatefulSet with ready replicas is satisfied; an absent object never is. -/
def isDependencySatisfied (c : Cluster) (st : Stack) (name : String) : Bool :=
  match lookupAssoc st.Services name with
  | none => false
  | some svc =>
    match findWorkload c (kindOfService svc) name with
    | none => false
    | some w =>
      match kindOfService svc with
      | Kind.Job => decide (w.status.active > 0 ∨ w.status.succeeded > 0)
      | Kind.StatefulSet => decide (w.status.readyReplicas > 0)
      | Kind.Deployment => decide (w.status.readyReplicas > 0)

/-- Whether the stack declares a service of this name. -/
def serviceDefined (st : Stack) (name : String) : Bool :=
  (lookupAssoc st.Services name).isSome

/-- Names in the DependsOn map of one service, in declaration order. -/
def dependencyNamesOf (st : Stack) (name : String) : List String :=
  (svcOf st name).DependsOn.map Prod.fst

/-- Names of the declared services of the stack. -/
def svcNames (st : Stack) : List String := st.Services.map Prod.fst

/-- Modelled from the spec: one scan over the dependency entries of one
service, appending every dependency that is not already in the result set
and is not currently satisfying its condition (dependencies the stack does
not declare are skipped; validation rejects them before this runs).  Yields
the appended names in discovery order. -/
def newDeps (c : Cluster) (st : Stack) (acc : List String) : List String → List String
  | [] => []
  | d :: ds =>
      if d ∈ acc ∨ isDependencySatisfied c st d = true ∨ serviceDefined st d = false then
        newDeps c st acc ds
      else d :: newDeps c st (acc ++ [d]) ds

/-- Modelled from the spec: the worklist of AddDependentServicesIfNotPresent.
Each appended name is scanned in turn (its own dependencies may need
expansion); the fuel argument bounds the pops and is chosen large enough
at the top level. -/
def addDepsAux (c : Cluster) (st : Stack) : Nat → List String → List String → List String
  | 0, _, acc => acc
  | _ + 1, [], acc => acc
  | n + 1, w :: ws, acc =>
      addDepsAux c st n (ws ++ newDeps c st acc (dependencyNamesOf st w))
        (acc ++ newDeps c st acc (dependencyNamesOf st w))

/-- Modelled from the spec: AddDependentServicesIfNotPresent expands the
requested service list to a dependency-closed list, preserving the
requested prefix and appending newly discovered, not-satisfied
dependencies in discovery order.  The fuel covers every possible pop: the
requested entries plus every distinct declared service name. -/
def AddDependentServicesIfNotPresent (c : Cluster) (st : Stack) (req : List String) :
    List String :=
  addDepsAux c st (req.length + (svcNames st).dedup.length) req req

theorem lookupAssoc_mem_keys {α : Type} (l : List (String × α)) (x : String)
    (h : (lookupAssoc l x).isSome = true) : x ∈ l.map Prod.fst := by
  induction l with
  | nil => simp [lookupAssoc] at h
  | cons hd tl ih =>
      by_cases hh : hd.1 = x
      · exact List.mem_map.mpr ⟨hd, List.mem_cons_self hd tl, hh⟩
      · rw [lookupAssoc, if_neg hh] at h
        simp only [List.map_cons, List.mem_cons]
        exact Or.inr (ih h)

theorem serviceDefined_mem_svcNames (st : Stack) (x : String)
    (h : serviceDefined st x = true) : x ∈ svcNames st :=
  lookupAssoc_mem_keys st.Services x h

theorem newDeps_props (c : Cluster) (st : Stack) (ds : List String) :
    ∀ acc, ∀ x ∈ newDeps c st acc ds,
      x ∈ ds ∧ x ∉ acc ∧ isDependencySatisfied c st x = false ∧
        serviceDefined st x = true := by
  induction ds with
  | nil => intro acc x hx; simp [newDeps] at hx
  | cons d ds ih =>
      intro acc x hx
      rw [newDeps] at hx
      by_cases hcond : d ∈ acc ∨ isDependencySatisfied c st d = true ∨
          serviceDefined st d = false
      · rw [if_pos hcond] at hx
        obtain ⟨h1, h2, h3, h4⟩ := ih acc x hx
        exact ⟨by simp [h1], h2, h3, h4⟩
      · rw [if_neg hcond] at hx
        have hd1 : d ∉ acc := fun hc => hcond (Or.inl hc)
        have hd2 : isDependencySatisfied c st d = false := by
          cases hb : isDependencySatisfied c st d
          · rfl
          · exact absurd (Or.inr (Or.inl hb)) hcond
        have hd3 : serviceDefined st d = true := by
          cases hb : serviceDefined st d
          · exact absurd (Or.inr (Or.inr hb)) hcond
          · rfl
        rcases List.mem_cons.mp hx with hx1 | hx2
        · subst hx1
          exact ⟨List.mem_cons_self _ _, hd1, hd2, hd3⟩
        · obtain ⟨h1, h2, h3, h4⟩ := ih (acc ++ [d]) x hx2
          exact ⟨by simp [h1], fun hc => h2 (by simp [hc]), h3, h4⟩

theorem newDeps_nodup (c : Cluster) (st : Stack) (ds : List String) :
    ∀ acc, (newDeps c st acc ds).Nodup := by
  induction ds with
  | nil => intro acc; simp [newDeps]
  | cons d ds ih =>
      intro acc
      rw [newDeps]
      by_cases hcond : d ∈ acc ∨ isDependencySatisfied c st d = true ∨
          serviceDefined st d = false
      · rw [if_pos hcond]; exact ih acc
      · rw [if_neg hcond]
        refine List.nodup_cons.mpr ⟨?_, ih (acc ++ [d])⟩
        intro hc
        have := (newDeps_props c st ds (acc ++ [d]) d hc).2.1
        exact this (by simp)

theorem newDeps_covers (c : Cluster) (st : Stack) (ds : List String) :
    ∀ acc, ∀ d ∈ ds,
      d ∈ acc ++ newDeps c st acc ds ∨ isDependencySatisfied c st d = true ∨
        serviceDefined st d = false := by
  induction ds with
  | nil => intro acc d hd; simp at hd
  | cons e ds ih =>
      intro acc d hd
      rw [newDeps]
      by_cases hcond : e ∈ acc ∨ isDependencySatisfied c st e = true ∨
          serviceDefined st e = false
      · rw [if_pos hcond]
        rcases List.mem_cons.mp hd with hde | hdd
        · subst hde
          rcases hcond with hc | hc
          · exact Or.inl (List.mem_append_left _ hc)
          · exact Or.inr hc
        · exact ih acc d hdd
      · rw [if_neg hcond]
        rcases List.mem_cons.mp hd with hde | hdd
        · subst hde
          refine Or.inl (List.mem_append_right _ ?_)
          exact List.mem_cons_self _ _
        · rcases ih (acc ++ [e]) d hdd with hmem | hrest
          · rw [List.append_assoc] at hmem
            exact Or.inl hmem
          · exact Or.inr hrest

theorem length_filter_stronger (dl : List String) (acc : List String) (n : String) :
    (dl.filter (fun x => decide (x ∉ acc ++ [n]))).length ≤
      (dl.filter (fun x => decide (x ∉ acc))).length := by
  refine List.Sublist.length_le (List.monotone_filter_right dl ?_)
  intro x hx
  simp only [decide_eq_true_eq] at hx ⊢
  intro hc
  exact hx (by simp [hc])

theorem length_filter_erase (dl : List String) (acc : List String) (n : String)
    (hn : n ∈ dl) (hacc : n ∉ acc) :
    (dl.filter (fun x => decide (x ∉ acc ++ [n]))).length + 1 ≤
      (dl.filter (fun x => decide (x ∉ acc))).length := by
  induction dl with
  | nil => simp at hn
  | cons x xs ih =>
      rw [List.filter_cons, List.filter_cons]
      by_cases hx : x = n
      · subst hx
        have h1 : (decide (x ∉ acc ++ [x])) = false := by simp
        have h2 : (decide (x ∉ acc)) = true := by simp [hacc]
        rw [h1, h2]
        simp only [if_false, if_true, List.length_cons, Bool.false_eq_true]
        exact Nat.add_le_add_right (length_filter_stronger xs acc x) 1
      · have hn2 : n ∈ xs := by
          rcases List.mem_cons.mp hn with h | h
          · exact absurd h.symm hx
          · exact h
        by_cases hxa : x ∈ acc
        · have h1 : decide (x ∉ acc ++ [n]) = false := by simp [hxa]
          have h2 : decide (x ∉ acc) = false := by simp [hxa]
          rw [h1, h2]
          simpa using ih hn2
        · have h1 : decide (x ∉ acc ++ [n]) = true := by simp [hxa, hx]
          have h2 : decide (x ∉ acc) = true := by simp [hxa]
          rw [h1, h2]
          have := ih hn2
          simp only [if_true, List.length_cons]
          omega

theorem length_filter_append_newly (dl : List String) (newly : List String) :
    ∀ acc, newly.Nodup → (∀ x ∈ newly, x ∈ dl ∧ x ∉ acc) →
      (dl.filter (fun x => decide (x ∉ acc ++ newly))).length + newly.length ≤
        (dl.filter (fun x => decide (x ∉ acc))).length := by
  induction newly with
  | nil =>
      intro acc _ _
      simp [List.append_nil]
  | cons n ns ih =>
      intro acc hnd hsub
      have hn := hsub n (List.mem_cons_self n ns)
      have h1 := length_filter_erase dl acc n hn.1 hn.2
      have hns := List.nodup_cons.mp hnd
      have h2 := ih (acc ++ [n]) hns.2 (fun x hx => by
        refine ⟨(hsub x (by simp [hx])).1, ?_⟩
        intro hc
        rcases List.mem_append.mp hc with ha | hb
        · exact (hsub x (by simp [hx])).2 ha
        · have hxn : x = n := List.mem_singleton.mp hb
          exact hns.1 (hxn ▸ hx))
      have heq : (acc ++ [n]) ++ ns = acc ++ (n :: ns) := by simp
      rw [heq] at h2
      simp only [List.length_cons]
      omega

theorem addDepsAux_spec (c : Cluster) (st : Stack) (req : List String) :
    ∀ fuel queue acc,
      queue.length +
        (((svcNames st).dedup).filter (fun x => decide (x ∉ acc))).length ≤ fuel →
      acc.Nodup →
      (∀ x ∈ queue, x ∈ acc) →
      (∀ a ∈ acc, a ∈ queue ∨
        (∀ d ∈ dependencyNamesOf st a, serviceDefined st d = true →
          isDependencySatisfied c st d = false → d ∈ acc)) →
      (∀ x ∈ acc, x ∉ req →
        isDependencySatisfied c st x = false ∧ serviceDefined st x = true ∧
          ∃ p ∈ acc, x ∈ dependencyNamesOf st p) →
      (∃ rest, addDepsAux c st fuel queue acc = acc ++ rest) ∧
      (addDepsAux c st fuel queue acc).Nodup ∧
      (∀ a ∈ addDepsAux c st fuel queue acc,
        ∀ d ∈ dependencyNamesOf st a, serviceDefined st d = true →
          isDependencySatisfied c st d = false → d ∈ addDepsAux c st fuel queue acc) ∧
      (∀ x ∈ addDepsAux c st fuel queue acc, x ∉ req →
        isDependencySatisfied c st x = false ∧ serviceDefined st x = true ∧
          ∃ p ∈ addDepsAux c st fuel queue acc, x ∈ dependencyNamesOf st p) := by
  intro fuel
  induction fuel with
  | zero =>
      intro queue acc hbound hnd hq hproc hbase
      have hq0 : queue = [] := by
        have : queue.length = 0 := by omega
        exact List.length_eq_zero.mp this
      subst hq0
      rw [show addDepsAux c st 0 [] acc = acc from rfl]
      refine ⟨⟨[], by simp⟩, hnd, ?_, hbase⟩
      intro a ha d hd hdef hsat
      rcases hproc a ha with hin | hdone
      · simp at hin
      · exact hdone d hd hdef hsat
  | succ n ih =>
      intro queue acc hbound hnd hq hproc hbase
      match queue with
      | [] =>
          rw [show addDepsAux c st (n + 1) [] acc = acc from rfl]
          refine ⟨⟨[], by simp⟩, hnd, ?_, hbase⟩
          intro a ha d hd hdef hsat
          rcases hproc a ha with hin | hdone
          · simp at hin
          · exact hdone d hd hdef hsat
      | w :: ws =>
          set nd := newDeps c st acc (dependencyNamesOf st w) with hdefnd
          have hprops := newDeps_props c st (dependencyNamesOf st w) acc
          have hnodupnew := newDeps_nodup c st (dependencyNamesOf st w) acc
          have hcovers := newDeps_covers c st (dependencyNamesOf st w) acc
          rw [← hdefnd] at hprops hnodupnew hcovers
          have hw_in_acc : w ∈ acc := hq w (List.mem_cons_self w ws)
          have hcount := length_filter_append_newly ((svcNames st).dedup) nd acc hnodupnew
            (fun x hx => ⟨List.mem_dedup.mpr
              (serviceDefined_mem_svcNames st x (hprops x hx).2.2.2), (hprops x hx).2.1⟩)
          have hbound2 : (ws ++ nd).length +
              (((svcNames st).dedup).filter (fun x => decide (x ∉ acc ++ nd))).length ≤ n := by
            rw [List.length_append]
            have hb1 := hbound
            simp only [List.length_cons] at hb1
            omega
          have hnd2 : (acc ++ nd).Nodup := by
            rw [List.nodup_append]
            exact ⟨hnd, hnodupnew, fun a ha hb => (hprops a hb).2.1 ha⟩
          have hq2 : ∀ x ∈ ws ++ nd, x ∈ acc ++ nd := by
            intro x hx
            rcases List.mem_append.mp hx with h | h
            · exact List.mem_append_left _ (hq x (by simp [h]))
            · exact List.mem_append_right _ h
          have hproc2 : ∀ a ∈ acc ++ nd, a ∈ ws ++ nd ∨
              (∀ d ∈ dependencyNamesOf st a, serviceDefined st d = true →
                isDependencySatisfied c st d = false → d ∈ acc ++ nd) := by
            intro a ha
            rcases List.mem_append.mp ha with hacc2 | hnew
            · rcases hproc a hacc2 with hin | hdone
              · rcases List.mem_cons.mp hin with haw | hws
                · subst haw
                  right
                  intro d hd hdef hsat
                  rcases hcovers d hd with hmem | hrest
                  · exact hmem
                  · rcases hrest with hsat2 | hdef2
                    · rw [hsat] at hsat2; simp at hsat2
                    · rw [hdef] at hdef2; simp at hdef2
                · exact Or.inl (List.mem_append_left _ hws)
              · right
                intro d hd hdef hsat
                exact List.mem_append_left _ (hdone d hd hdef hsat)
            · exact Or.inl (List.mem_append_right _ hnew)
          have hbase2 : ∀ x ∈ acc ++ nd, x ∉ req →
              isDependencySatisfied c st x = false ∧ serviceDefined st x = true ∧
                ∃ p ∈ acc ++ nd, x ∈ dependencyNamesOf st p := by
            intro x hx hnx
            rcases List.mem_append.mp hx with hacc2 | hnew
            · obtain ⟨hs, hdef, p, hp, hdp⟩ := hbase x hacc2 hnx
              exact ⟨hs, hdef, p, List.mem_append_left _ hp, hdp⟩
            · obtain ⟨hds, hnacc, hsat, hdef⟩ := hprops x hnew
              exact ⟨hsat, hdef, w, List.mem_append_left _ hw_in_acc, hds⟩
          have hrec := ih (ws ++ nd) (acc ++ nd) hbound2 hnd2 hq2 hproc2 hbase2
          rw [show addDepsAux c st (n + 1) (w :: ws) acc =
            addDepsAux c st n (ws ++ nd) (acc ++ nd) from rfl]
          obtain ⟨⟨rest, hrest⟩, hnodup, hfix, hbasef⟩ := hrec
          exact ⟨⟨nd ++ rest, by rw [hrest, List.append_assoc]⟩, hnodup, hfix, hbasef⟩

/-- The property of C4: the expanded list starts with the requested list;
it has no duplicates (nothing is appended twice and a dependency already
requested is never duplicated); every appended entry is a dependency of
some service in the result that is declared by the stack and is not
currently satisfying its condition (so a Job dependency with Active or
Succeeded counts, or a Deployment or StatefulSet dependency with ready
replicas, is never appended); and conversely every declared, not-satisfied
dependency of any service in the result is in the result (so a Job
dependency with only Failed counts, or with no cluster object at all, is
appended). -/
def AddDepsClosureSpec (c : Cluster) (st : Stack) (req : List String) : Prop :=
  (∃ rest, AddDependentServicesIfNotPresent c st req = req ++ rest) ∧
  (AddDependentServicesIfNotPresent c st req).Nodup ∧
  (∀ a ∈ AddDependentServicesIfNotPresent c st req,
    ∀ d ∈ dependencyNamesOf st a, serviceDefined st d = true →
      isDependencySatisfied c st d = false →
        d ∈ AddDependentServicesIfNotPresent c st req) ∧
  (∀ x ∈ AddDependentServicesIfNotPresent c st req, x ∉ req →
    isDependencySatisfied c st x = false ∧ serviceDefined st x = true ∧
      ∃ p ∈ AddDependentServicesIfNotPresent c st req, x ∈ dependencyNamesOf st p)

/-- C4: AddDependentServicesIfNotPresent returns the requested list with,
appended in discovery order, exactly the declared dependencies that are not
already present and are not currently satisfying their condition, with no
duplication. -/
theorem AddDependentServicesIfNotPresent_closure (c : Cluster) (st : Stack)
    (req : List String) (h : req.Nodup) : AddDepsClosureSpec c st req := by
  have hb : req.length +
      (((svcNames st).dedup).filter (fun x => decide (x ∉ req))).length ≤
      req.length + (svcNames st).dedup.length := by
    have := List.length_filter_le (fun x => decide (x ∉ req)) ((svcNames st).dedup)
    omega
  have hmain := addDepsAux_spec c st req (req.length + (svcNames st).dedup.length) req req
    hb h (fun x hx => hx) (fun a ha => Or.inl ha) (fun x hx hnx => absurd hx hnx)
  unfold AddDepsClosureSpec AddDependentServicesIfNotPresent
  exact hmain

/-- Stack of the first dependency-closure test: app depends on a
run-to-completion service with no cluster object yet. -/
def stackDeps : Stack :=
  { Name := "", Namespace := "default",
    Services :=
      [("job-not-running", { emptyService with RestartPolicy := RestartPolicyNever }),
       ("app", { emptyService with DependsOn := [("job-not-running", Condition.started)] })],
    Manifest := [], IsCompose := false }

/-- The fake cluster of the dependency-closure tests: an active job, a
failed job, a succeeded job, a ready statefulset and a ready deployment. -/
def clusterDeps : Cluster :=
  { workloads :=
      [{ kind := Kind.Job, name := "job-active", labels := [],
         status := { active := 1, succeeded := 0, failed := 0, readyReplicas := 0 } },
       { kind := Kind.Job, name := "job-failed", labels := [],
         status := { active := 0, succeeded := 0, failed := 1, readyReplicas := 0 } },
       { kind := Kind.Job, name := "job-succeeded", labels := [],
         status := { active := 0, succeeded := 1, failed := 0, readyReplicas := 0 } },
       { kind := Kind.StatefulSet, name := "sfs", labels := [],
         status := { active := 0, succeeded := 0, failed := 0, readyReplicas := 1 } },
       { kind := Kind.Deployment, name := "dep", labels := [],
         status := { active := 0, succeeded := 0, failed := 0, readyReplicas := 1 } }],
    k8sServices := [], pods := [] }

/-- Witness for C4 at the first dependency-closure test scenario. -/
theorem AddDependentServicesIfNotPresent_closure_witness :
    (["app"] : List String).Nodup ∧ AddDepsClosureSpec clusterDeps stackDeps ["app"] :=
  ⟨by decide, AddDependentServicesIfNotPresent_closure clusterDeps stackDeps ["app"] (by decide)⟩

/-- Stack variant: app depends on the active job. -/
def stackDepActive : Stack :=
  { stackDeps with Services :=
      [("job-active", { emptyService with RestartPolicy := RestartPolicyNever }),
       ("app", { emptyService with DependsOn := [("job-active", Condition.started)] })] }

/-- Stack variant: app depends on the failed job. -/
def stackDepFailed : Stack :=
  { stackDeps with Services :=
      [("job-failed", { emptyService with RestartPolicy := RestartPolicyNever }),
       ("app", { emptyService with DependsOn := [("job-failed", Condition.started)] })] }

/-- Stack variant: app depends on the succeeded job. -/
def stackDepSucceeded : Stack :=
  { stackDeps with Services :=
      [("job-succeeded", { emptyService with RestartPolicy := RestartPolicyNever }),
       ("app", { emptyService with DependsOn := [("job-succeeded", Condition.started)] })] }

/-- Stack variant: api depends on db and both are requested. -/
def stackDepBoth : Stack :=
  { stackDeps with Services :=
      [("db", emptyService),
       ("api", { emptyService with DependsOn := [("db", Condition.started)] })] }

example : AddDependentServicesIfNotPresent clusterDeps stackDeps ["app"] =
    ["app", "job-not-running"] := by decide

example : AddDependentServicesIfNotPresent clusterDeps stackDepActive ["app"] = ["app"] := by
  decide

example : AddDependentServicesIfNotPresent clusterDeps stackDepFailed ["app"] =
    ["app", "job-failed"] := by decide

example : AddDependentServicesIfNotPresent clusterDeps stackDepSucceeded ["app"] = ["app"] := by
  decide

example : AddDependentServicesIfNotPresent clusterDeps stackDepBoth ["api", "db"] =
    ["api", "db"] := by decide

/-- The below-budget cluster: the test1 pod restarted once, limit two. -/
def clusterRestartBelow : Cluster :=
  { workloads := [], k8sServices := [],
    pods := [{ labels := [(StackNameLabel, "test"), (StackServiceNameLabel, "test1")],
               containerRestartCounts := [1] }] }

example : getErrorDueToRestartLimit stackRestart "test2" clusterRestartBelow = none := by
  decide

example : getErrorDueToRestartLimit stackRestart "test2" clusterRestart =
    some (restartLimitMessage "test1" 5) := by decide
